import Mathlib

/-!
Shallow embedding of the LinguaComic application core
(`src/types.ts`, `src/App.tsx`, `src/components/ComicGenerator.tsx`,
`src/components/VocabCard.tsx` (which also holds `geminiService`),
`src/unnamed/part_000` = the `LogicGraph` component).

External collaborator calls (Gemini analysis / image synthesis) are
modelled by explicit outcome parameters: `Except Unit _` for a call that
may reject, and a response shape mirroring the fields the code reads.
React `useState` state is threaded explicitly through `Session` /
`GraphSession` records; each event handler becomes a function on that
state.
-/

/- ### Data model (`src/types.ts`) -/

/-- `AppState` enum from `src/types.ts`. -/
inductive AppState where
  | IDLE
  | ANALYZING
  | GENERATING_IMAGES
  | COMPLETE
  | ERROR
deriving DecidableEq, BEq, Repr

/-- `Vocabulary` interface. The TS field `example` is a Lean keyword,
hence the guillemets. -/
structure Vocabulary where
  word : String
  definition : String
  «example» : String
  visualPrompt : String
  imageUrl : Option String := none
deriving DecidableEq, Repr

/-- `ComicPanel` interface; `imageUrl` is absent until image generation. -/
structure ComicPanel where
  panelId : Int
  visualPrompt : String
  caption : String
  characterDialogue : String
  imageUrl : Option String := none
deriving DecidableEq, Repr

/-- `LogicNode` interface. -/
structure LogicNode where
  id : String
  label : String
  group : Int
deriving DecidableEq, Repr

/-- `LogicLink` interface. -/
structure LogicLink where
  source : String
  target : String
  relationship : String
deriving DecidableEq, Repr

/-- `LogicGraphData` interface. -/
structure LogicGraphData where
  nodes : List LogicNode
  links : List LogicLink
deriving DecidableEq, Repr

/-- `AnalysisResult` interface: the Document of the spec. -/
structure AnalysisResult where
  summary : String
  comicScript : List ComicPanel
  logicGraph : LogicGraphData
  vocabulary : List Vocabulary
deriving DecidableEq, Repr

/- ### Image synthesis collaborator and `generateImage`
(`src/components/VocabCard.tsx`, geminiService part, lines 209-235) -/

/-- Shape of `part.inlineData` as read by `generateImage`:
`mimeType` may be missing (the code defaults it) and `data` is the
base64 payload (the code skips parts whose `data` is falsy, i.e. `""`). -/
structure InlineData where
  mimeType : Option String
  data : String
deriving DecidableEq, Repr

/-- One entry of `response.candidates[0].content.parts`. -/
structure ResponsePart where
  inlineData : Option InlineData
deriving DecidableEq, Repr

/-- Outcome of the underlying `ai.models.generateContent` call inside
`generateImage`: `.error` = the await rejected (network failure);
`.ok none` = the optional chain `candidates?.[0]?.content?.parts`
produced nothing; `.ok (some parts)` = a parts list was returned. -/
abbrev SynthResponse := Except Unit (Option (List ResponsePart))

/-- The fixed fallback URL returned by `generateImage` on any failure. -/
def imagePlaceholder : String :=
  "https://picsum.photos/400/300?blur=2&text=Image+Gen+Failed"

/-- The data URL built from one part, when that part carries image data:
mirrors `data:${part.inlineData.mimeType || 'image/png'};base64,${data}`
including the JS falsy test on `data` and the `||` default on `mimeType`. -/
def partImageUrl (p : ResponsePart) : Option String :=
  match p.inlineData with
  | none => none
  | some d =>
    if d.data = "" then none
    else
      some ("data:" ++
        (match d.mimeType with
         | some m => if m = "" then "image/png" else m
         | none => "image/png") ++ ";base64," ++ d.data)

/-- The `for (const part of parts)` loop: first part with usable
`inlineData.data` wins. -/
def firstImage : List ResponsePart → Option String
  | [] => none
  | p :: rest =>
    match partImageUrl p with
    | some u => some u
    | none => firstImage rest

/-- `generateImage` (geminiService): returns the first image data URL
found in the response; any rejection, missing parts chain, or parts list
without image data falls into the catch-all, which returns the fixed
placeholder URL. The function always returns a string — it never
rethrows. -/
def generateImage (resp : SynthResponse) : String :=
  match resp with
  | Except.error _ => imagePlaceholder
  | Except.ok none => imagePlaceholder
  | Except.ok (some parts) =>
    match firstImage parts with
    | some u => u
    | none => imagePlaceholder

/-- A synthesis call counts as failed when the underlying request
rejects or the response carries no image data (the conditions under
which the code's catch-all runs). -/
def synthFailed : SynthResponse → Bool
  | Except.error _ => true
  | Except.ok none => true
  | Except.ok (some parts) => (firstImage parts).isNone

theorem generateImage_of_failed (resp : SynthResponse)
    (h : synthFailed resp = true) : generateImage resp = imagePlaceholder := by
  cases resp with
  | error e => rfl
  | ok o =>
    cases o with
    | none => rfl
    | some parts =>
      simp only [synthFailed, Option.isNone] at h
      simp only [generateImage]
      cases hf : firstImage parts with
      | none => rfl
      | some u => rw [hf] at h; simp at h

theorem generateImage_of_image (parts : List ResponsePart) (u : String)
    (h : firstImage parts = some u) :
    generateImage (Except.ok (some parts)) = u := by
  simp [generateImage, h]

/- ### Promise semantics

`arr.map(async (x, i) => ...)` produces one promise per element; its
eventual value for index `i` is deterministic given the collaborator
outcomes, so we model the list of eventual values directly (`mapI`,
index-aware map mirroring the closure over the element and its index).

`Promise.all` is modelled operationally: a result array starts all-unset
and each settling promise writes its slot, in an arbitrary completion
order given by a list of indices; the join succeeds only once every slot
is set. -/

/-- Index-aware map: the denotation of `arr.map((x, i) => f i x)`. -/
def mapI (f : Nat → α → β) : List α → List β
  | [] => []
  | a :: l => f 0 a :: mapI (fun i x => f (i + 1) x) l

theorem length_mapI (f : Nat → α → β) (l : List α) :
    (mapI f l).length = l.length := by
  induction l generalizing f with
  | nil => rfl
  | cons a l ih => simp [mapI, ih]

theorem get?_mapI (f : Nat → α → β) (l : List α) (i : Nat) :
    (mapI f l).get? i = (l.get? i).map (f i) := by
  induction l generalizing f i with
  | nil => simp [mapI]
  | cons a l ih =>
    cases i with
    | zero => simp [mapI]
    | succ i => simpa [mapI] using ih (fun j x => f (j + 1) x) i

theorem map_mapI (g : β → γ) (f : Nat → α → β) (l : List α) :
    (mapI f l).map g = mapI (fun i a => g (f i a)) l := by
  induction l generalizing f with
  | nil => rfl
  | cons a l ih => simp [mapI, ih]

theorem mapI_congr_map (f : Nat → α → β) (g : α → β) (l : List α)
    (h : ∀ i a, f i a = g a) : mapI f l = l.map g := by
  induction l generalizing f with
  | nil => rfl
  | cons a l ih =>
    simp only [mapI, h 0 a, List.map_cons]
    exact congrArg _ (ih (fun i x => f (i + 1) x) (fun i a => h (i + 1) a))

theorem get?_set_self (l : List α) (i : Nat) (a : α) (h : i < l.length) :
    (l.set i a).get? i = some a := by
  induction l generalizing i with
  | nil => simp at h
  | cons b l ih =>
    cases i with
    | zero => rfl
    | succ i => exact ih i (Nat.lt_of_succ_lt_succ h)

theorem get?_set_other (l : List α) (i j : Nat) (a : α) (h : i ≠ j) :
    (l.set i a).get? j = l.get? j := by
  induction l generalizing i j with
  | nil => rfl
  | cons b l ih =>
    cases i with
    | zero =>
      cases j with
      | zero => exact absurd rfl h
      | succ j => rfl
    | succ i =>
      cases j with
      | zero => rfl
      | succ j => exact ih i j (fun hij => h (congrArg Nat.succ hij))

/-- One promise settling: slot `i` of the result array receives the
eventual value of promise `i`. -/
def settleStep (values : List β) (st : List (Option β)) (i : Fin values.length) :
    List (Option β) :=
  st.set i (some (values.get i))

/-- `Promise.all`, operationally: starting from an all-unset result
array, apply the settlements in completion order `order`. -/
def promiseAll (values : List β) (order : List (Fin values.length)) :
    List (Option β) :=
  order.foldl (settleStep values) (values.map (fun _ => none))

/-- The join: `Promise.all` resolves (with the full result list) only
when every slot has been settled. -/
def joinSettled : List (Option β) → Option (List β)
  | [] => some []
  | none :: _ => none
  | some b :: rest => (joinSettled rest).map (fun l => b :: l)

theorem length_foldl_settle (values : List β) (order : List (Fin values.length))
    (st : List (Option β)) :
    (order.foldl (settleStep values) st).length = st.length := by
  induction order generalizing st with
  | nil => rfl
  | cons i order ih => simp [List.foldl_cons, ih, settleStep]

theorem get?_foldl_settle (values : List β) (order : List (Fin values.length))
    (st : List (Option β)) (j : Fin values.length) (hlen : st.length = values.length) :
    (order.foldl (settleStep values) st).get? (j : Nat) =
      if j ∈ order then some (some (values.get j)) else st.get? (j : Nat) := by
  induction order generalizing st with
  | nil => simp
  | cons i order ih =>
    have hlen' : (settleStep values st i).length = values.length := by
      simp [settleStep, hlen]
    rw [List.foldl_cons, ih (settleStep values st i) hlen']
    by_cases hj : j ∈ order
    · simp [hj, List.mem_cons, or_comm]
    · by_cases hij : j = i
      · subst hij
        have hjlt : (j : Nat) < st.length := by rw [hlen]; exact j.isLt
        simp only [settleStep] at *
        rw [if_neg hj, if_pos (List.mem_cons_self j order),
          get?_set_self st (j : Nat) _ hjlt]
      · have hne : (i : Nat) ≠ (j : Nat) := fun h => hij (Fin.ext h.symm)
        have hmem : j ∉ i :: order := by
          intro hm
          rcases List.mem_cons.mp hm with h | h
          · exact hij h
          · exact hj h
        simp only [settleStep] at *
        rw [if_neg hj, if_neg hmem, get?_set_other st (i : Nat) (j : Nat) _ hne]

theorem promiseAll_of_cover (values : List β) (order : List (Fin values.length))
    (hcover : ∀ j : Fin values.length, j ∈ order) :
    promiseAll values order = values.map some := by
  apply List.ext
  intro n
  by_cases hn : n < values.length
  · have := get?_foldl_settle values order (values.map (fun _ => none)) ⟨n, hn⟩
      (by simp)
    simp only [promiseAll]
    rw [this, if_pos (hcover ⟨n, hn⟩)]
    rw [List.get?_map, List.get?_eq_get hn]
    rfl
  · have h1 : (promiseAll values order).length ≤ n := by
      simp only [promiseAll]
      rw [length_foldl_settle]
      simpa using Nat.le_of_not_lt hn
    have h2 : (values.map some).length ≤ n := by
      simpa using Nat.le_of_not_lt hn
    rw [List.get?_eq_none.mpr h1, List.get?_eq_none.mpr h2]

theorem joinSettled_map_some (l : List β) : joinSettled (l.map some) = some l := by
  induction l with
  | nil => rfl
  | cons a l ih => simp [joinSettled, ih]

theorem joinSettled_eq_some_iff (st : List (Option β)) (l : List β) :
    joinSettled st = some l ↔ st = l.map some := by
  induction st generalizing l with
  | nil =>
    constructor
    · intro h
      cases l with
      | nil => rfl
      | cons b l => simp [joinSettled] at h
    · intro h
      cases l with
      | nil => rfl
      | cons b l => simp at h
  | cons o st ih =>
    cases o with
    | none =>
      constructor
      · intro h; simp [joinSettled] at h
      · intro h
        cases l with
        | nil => simp at h
        | cons b l => simp at h
    | some b =>
      constructor
      · intro h
        simp only [joinSettled, Option.map_eq_some'] at h
        obtain ⟨l', hl', rfl⟩ := h
        simp [(ih l').mp hl']
      · intro h
        cases l with
        | nil => simp at h
        | cons c l =>
          simp only [List.map_cons, List.cons.injEq, Option.some.injEq] at h
          obtain ⟨rfl, hrest⟩ := h
          simp [joinSettled, (ih l).mpr hrest]

/-- The all-settle join of `Promise.all` succeeds exactly when every
promise has settled, and then the result is the list of eventual values
in input order, independent of the completion order. -/
theorem promiseAll_join_iff (values : List β) (order : List (Fin values.length))
    (l : List β) :
    joinSettled (promiseAll values order) = some l ↔
      (∀ j : Fin values.length, j ∈ order) ∧ l = values := by
  constructor
  · intro h
    have hst := (joinSettled_eq_some_iff _ _).mp h
    have hlenl : l.length = values.length := by
      have := congrArg List.length hst
      simp only [promiseAll] at this
      rw [length_foldl_settle] at this
      simpa using this.symm
    have hcover : ∀ j : Fin values.length, j ∈ order := by
      intro j
      by_contra hj
      have h1 := get?_foldl_settle values order (values.map (fun _ => none)) j (by simp)
      rw [if_neg hj] at h1
      have h2 : (promiseAll values order).get? (j : Nat) = some none := by
        simp only [promiseAll]
        rw [h1, List.get?_map, List.get?_eq_get j.isLt]
        rfl
      rw [hst, List.get?_map, List.get?_eq_get (show (j : Nat) < l.length by rw [hlenl]; exact j.isLt)] at h2
      simp at h2
    refine ⟨hcover, ?_⟩
    have heq : promiseAll values order = values.map some :=
      promiseAll_of_cover values order hcover
    rw [heq, joinSettled_map_some] at h
    exact (Option.some.inj h).symm
  · intro h
    obtain ⟨hcover, hl⟩ := h
    rw [hl, promiseAll_of_cover values order hcover, joinSettled_map_some]

/- ### Pipeline orchestrator (`src/App.tsx`) -/

/-- The three `useState` cells of `App` that the claims concern
(`activeTab` is pure presentation and omitted). -/
structure Session where
  appState : AppState
  data : Option AnalysisResult
  errorMsg : Option String
deriving DecidableEq, Repr

/-- A call issued to an external collaborator during `handleAnalyze`. -/
inductive ExtCall where
  | analysis : ExtCall
  | panelSynth : Nat → ExtCall
  | vocabSynth : Nat → ExtCall
deriving DecidableEq, Repr

/-- The error message set by `handleAnalyze`'s catch block. -/
def analysisErrorMsg : String :=
  "Something went wrong. Please check your API key or try simpler content."

/-- Lines 16-18 of `App.tsx`: the synchronous prefix of `handleAnalyze`.
It is unconditional — there is no guard on the current `appState`; the
Document is cleared and the state set to `ANALYZING` whatever the
session looked like. -/
def handleAnalyzeStart (_s : Session) : Session :=
  { appState := AppState.ANALYZING, data := none, errorMsg := none }

/-- The per-panel async closure at lines 27-35: await `generateImage`,
then spread the panel with the new `imageUrl`; a rejection is caught and
the panel returned unchanged. -/
def illustratePanel (gen : Except Unit String) (panel : ComicPanel) : ComicPanel :=
  match gen with
  | Except.ok imageUrl => { panel with imageUrl := some imageUrl }
  | Except.error _ => panel

/-- The per-vocabulary async closure at lines 39-47 (same shape). -/
def illustrateVocab (gen : Except Unit String) (v : Vocabulary) : Vocabulary :=
  match gen with
  | Except.ok imageUrl => { v with imageUrl := some imageUrl }
  | Except.error _ => v

/-- The functional update at lines 56-60: `setData(prev => prev ? {
...prev, comicScript: panelsWithImages, vocabulary: vocabWithImages } :
null)`. Note the only staleness guard is the null check on `prev`. -/
def mergeImages (prev : Option AnalysisResult) (panelsWithImages : List ComicPanel)
    (vocabWithImages : List Vocabulary) : Option AnalysisResult :=
  match prev with
  | some p => some { p with comicScript := panelsWithImages,
                            vocabulary := vocabWithImages }
  | none => none

/-- `handleAnalyze` (`App.tsx` lines 15-69) as a whole-run function: the
collaborator outcomes are passed in (`analysisResp` for
`analyzeContent`; `panelResp i` / `vocabResp i` for the synthesis call
behind `generateImage` on item `i`). Returns the final session together
with the list of collaborator calls issued. Because `generateImage`
absorbs its own failures and always returns a string, each per-item
promise resolves with `Except.ok (generateImage _)` and the per-item
catch branch is unreachable; within one uninterrupted run the functional
update of lines 56-60 receives the Document stored at line 23. -/
def handleAnalyze (s : Session) (analysisResp : Except Unit AnalysisResult)
    (panelResp vocabResp : Nat → SynthResponse) : Session × List ExtCall :=
  let s0 := handleAnalyzeStart s
  match analysisResp with
  | Except.error _ =>
    ({ s0 with appState := AppState.ERROR, errorMsg := some analysisErrorMsg },
      [ExtCall.analysis])
  | Except.ok result =>
    let panelsWithImages :=
      mapI (fun i panel => illustratePanel (Except.ok (generateImage (panelResp i))) panel)
        result.comicScript
    let vocabWithImages :=
      mapI (fun i v => illustrateVocab (Except.ok (generateImage (vocabResp i))) v)
        result.vocabulary
    ({ appState := AppState.COMPLETE,
       data := mergeImages (some result) panelsWithImages vocabWithImages,
       errorMsg := none },
     ExtCall.analysis ::
       (mapI (fun i _ => ExtCall.panelSynth i) result.comicScript ++
        mapI (fun i _ => ExtCall.vocabSynth i) result.vocabulary))

/-- The Start Over button (`App.tsx` line 160): `setAppState(AppState.IDLE)`
and nothing else — in particular `setData` is not called. -/
def startOver (s : Session) : Session :=
  { s with appState := AppState.IDLE }

/-- The render condition at `App.tsx` line 121: the input section (the
only place a run can be started from) is shown only in `IDLE` or `ERROR`. -/
def inputSectionVisible (st : AppState) : Bool :=
  st == AppState.IDLE || st == AppState.ERROR

/-- `handleUpdatePanel` (`App.tsx` lines 72-76). -/
def handleUpdatePanel (data : Option AnalysisResult) (panelId : Int)
    (updatedPanel : ComicPanel) : Option AnalysisResult :=
  match data with
  | none => none
  | some d =>
    some { d with comicScript :=
      d.comicScript.map (fun p => if p.panelId = panelId then updatedPanel else p) }

/-- The `EditForm` save in `ComicGenerator.tsx`: the form state starts
from the panel and only `caption` and `characterDialogue` are ever
patched before `onSave` hands the panel back to `handleUpdatePanel`. -/
def editFormSave (p : ComicPanel) (caption characterDialogue : String) : ComicPanel :=
  { p with caption := caption, characterDialogue := characterDialogue }

/-- The composed `updatePanelText` operation of the spec: editing panel
`p`'s text fields through `EditForm` and saving
(`onUpdatePanel(panel.panelId, panel)`). -/
def updatePanelText (data : Option AnalysisResult) (p : ComicPanel)
    (caption characterDialogue : String) : Option AnalysisResult :=
  handleUpdatePanel data p.panelId (editFormSave p caption characterDialogue)

/-- `handleRegeneratePanelImage` (`App.tsx` lines 79-91), with the
underlying synthesis outcome passed in. As in the fan-out,
`generateImage` cannot reject, so the catch at line 88 is unreachable
and the map at line 86 always runs once a panel with the id is found. -/
def handleRegeneratePanelImage (data : Option AnalysisResult) (panelId : Int)
    (resp : SynthResponse) : Option AnalysisResult :=
  match data with
  | none => none
  | some d =>
    match d.comicScript.find? (fun p => p.panelId = panelId) with
    | none => some d
    | some _ =>
      let newImageUrl := generateImage resp
      some { d with comicScript :=
        d.comicScript.map (fun p =>
          if p.panelId = panelId then { p with imageUrl := some newImageUrl } else p) }

/- ### Graph model (`src/unnamed/part_000`, the `LogicGraph` component) -/

/-- `handleUpdateLogic` (`App.tsx` lines 94-97): replace the Document's
`logicGraph` wholesale (no-op on a null Document). -/
def handleUpdateLogic (data : Option AnalysisResult) (newGraphData : LogicGraphData) :
    Option AnalysisResult :=
  match data with
  | none => none
  | some d => some { d with logicGraph := newGraphData }

/-- Replace the element at `idx` by `f` of it; out-of-range indices are
untouched (the editor only ever passes indices produced by rendering the
list, so the in-range case is the live one). -/
def updateAt (l : List α) (idx : Nat) (f : α → α) : List α :=
  match l.get? idx with
  | some a => l.set idx (f a)
  | none => l

/-- One structural edit in the `LogicGraph` editor (`part_000` lines
154-168), each mirroring the corresponding `setEditData` closure.
`addNode` takes the fresh id (`n${Date.now()}` in the source) as a
parameter since wall-clock time is outside the embedding. -/
inductive GraphEdit where
  | addNode (freshId : String)
  | removeNode (idx : Nat)
  | updateNodeId (idx : Nat) (val : String)
  | updateNodeLabel (idx : Nat) (val : String)
  | updateNodeGroup (idx : Nat) (val : Int)
  | addLink
  | removeLink (idx : Nat)
  | updateLinkSource (idx : Nat) (val : String)
  | updateLinkTarget (idx : Nat) (val : String)
  | updateLinkRel (idx : Nat) (val : String)
deriving DecidableEq, Repr

/-- The effect of one editor closure on the scratch copy `editData`. -/
def applyEdit : GraphEdit → LogicGraphData → LogicGraphData
  | GraphEdit.addNode freshId, g =>
    { g with nodes := g.nodes ++ [{ id := freshId, label := "New", group := 1 }] }
  | GraphEdit.removeNode idx, g =>
    { g with nodes := g.nodes.eraseIdx idx }
  | GraphEdit.updateNodeId idx v, g =>
    { g with nodes := updateAt g.nodes idx (fun n => { n with id := v }) }
  | GraphEdit.updateNodeLabel idx v, g =>
    { g with nodes := updateAt g.nodes idx (fun n => { n with label := v }) }
  | GraphEdit.updateNodeGroup idx v, g =>
    { g with nodes := updateAt g.nodes idx (fun n => { n with group := v }) }
  | GraphEdit.addLink, g =>
    { g with links := g.links ++
        [{ source := ((g.nodes.head?).map (fun n => n.id)).getD "",
           target := "", relationship := "" }] }
  | GraphEdit.removeLink idx, g =>
    { g with links := g.links.eraseIdx idx }
  | GraphEdit.updateLinkSource idx v, g =>
    { g with links := updateAt g.links idx (fun l => { l with source := v }) }
  | GraphEdit.updateLinkTarget idx v, g =>
    { g with links := updateAt g.links idx (fun l => { l with target := v }) }
  | GraphEdit.updateLinkRel idx v, g =>
    { g with links := updateAt g.links idx (fun l => { l with relationship := v }) }

def applyEdits (edits : List GraphEdit) (g : LogicGraphData) : LogicGraphData :=
  edits.foldl (fun g e => applyEdit e g) g

/-- The App-level Document together with the `LogicGraph` component's
local state (`isEditing`, the scratch copy `editData`). -/
structure GraphSession where
  data : Option AnalysisResult
  isEditing : Bool
  editData : LogicGraphData
deriving DecidableEq, Repr

/-- User actions on the `LogicGraph` component: the Edit button, one
editor change, Save Changes (`handleSave`, `part_000` lines 148-151:
`onUpdate(editData); setIsEditing(false)`), and Cancel (line 176:
`setIsEditing(false)` only). -/
inductive GraphAction where
  | startEdit : GraphAction
  | edit : GraphEdit → GraphAction
  | save : GraphAction
  | cancel : GraphAction
deriving DecidableEq, Repr

def graphStep : GraphAction → GraphSession → GraphSession
  | GraphAction.startEdit, s => { s with isEditing := true }
  | GraphAction.edit e, s => { s with editData := applyEdit e s.editData }
  | GraphAction.save, s =>
    { s with data := handleUpdateLogic s.data s.editData, isEditing := false }
  | GraphAction.cancel, s => { s with isEditing := false }

def runGraphActions (acts : List GraphAction) (s : GraphSession) : GraphSession :=
  acts.foldl (fun s a => graphStep a s) s

/-- The component state right after mount / a new Document: the
`useEffect` on `[data]` copies the Document's graph into `editData`. -/
def mountedGraphSession (doc : AnalysisResult) : GraphSession :=
  { data := some doc, isEditing := false, editData := doc.logicGraph }

/- ### Helper lemmas -/

theorem illustratePanel_ok (u : String) (p : ComicPanel) :
    illustratePanel (Except.ok u) p = { p with imageUrl := some u } := rfl

theorem illustratePanel_panelId (gen : Except Unit String) (p : ComicPanel) :
    (illustratePanel gen p).panelId = p.panelId := by
  cases gen <;> rfl

theorem illustrateVocab_word (gen : Except Unit String) (v : Vocabulary) :
    (illustrateVocab gen v).word = v.word := by
  cases gen <;> rfl

theorem map_if_panelId_not_mem (l : List ComicPanel) (panelId : Int)
    (x : ComicPanel → ComicPanel)
    (h : ∀ p ∈ l, p.panelId ≠ panelId) :
    l.map (fun p => if p.panelId = panelId then x p else p) = l := by
  induction l with
  | nil => rfl
  | cons a l ih =>
    have ha : a.panelId ≠ panelId := h a (List.mem_cons_self a l)
    simp only [List.map_cons, if_neg ha]
    rw [ih (fun p hp => h p (List.mem_cons_of_mem a hp))]

theorem runGraphActions_append (a b : List GraphAction) (s : GraphSession) :
    runGraphActions (a ++ b) s = runGraphActions b (runGraphActions a s) := by
  simp [runGraphActions, List.foldl_append]

/-- Applying only editor changes never touches the Document or the edit
flag; it only folds the edits into the scratch copy. -/
theorem runGraphActions_edits (edits : List GraphEdit) (s : GraphSession) :
    runGraphActions (edits.map GraphAction.edit) s =
      { s with editData := applyEdits edits s.editData } := by
  induction edits generalizing s with
  | nil => simp [runGraphActions, applyEdits]
  | cons e edits ih =>
    simp only [List.map_cons, runGraphActions, List.foldl_cons] at *
    have hstep : graphStep (GraphAction.edit e) s =
        { s with editData := applyEdit e s.editData } := rfl
    rw [hstep, ih { s with editData := applyEdit e s.editData }]
    rfl

theorem eraseIdx_map (f : α → β) (l : List α) (i : Nat) :
    (l.eraseIdx i).map f = (l.map f).eraseIdx i := by
  induction l generalizing i with
  | nil => rfl
  | cons a l ih =>
    cases i with
    | zero => rfl
    | succ i => simp [List.eraseIdx, ih]

theorem mem_eraseIdx_of_mem (l : List α) (i : Nat) (a : α)
    (h : a ∈ l.eraseIdx i) : a ∈ l := by
  induction l generalizing i with
  | nil => simp [List.eraseIdx] at h
  | cons b l ih =>
    cases i with
    | zero => exact List.mem_cons_of_mem b h
    | succ i =>
      rcases List.mem_cons.mp h with h | h
      · exact h ▸ List.mem_cons_self b l
      · exact List.mem_cons_of_mem b (ih i h)

/-- Removing the entry at index `i` from a list with pairwise distinct
images under `f` removes the image of that entry entirely. -/
theorem not_mem_map_eraseIdx (f : α → β) (l : List α) (i : Nat)
    (hi : i < l.length) (hn : (l.map f).Nodup) :
    f (l.get ⟨i, hi⟩) ∉ (l.eraseIdx i).map f := by
  induction l generalizing i with
  | nil => simp at hi
  | cons a l ih =>
    cases i with
    | zero =>
      simp only [List.map_cons, List.nodup_cons] at hn
      simpa [List.eraseIdx] using hn.1
    | succ i =>
      have hi' : i < l.length := Nat.lt_of_succ_lt_succ hi
      simp only [List.map_cons, List.nodup_cons] at hn
      intro hmem
      simp only [List.eraseIdx, List.map_cons, List.mem_cons] at hmem
      rcases hmem with h | h
      · exact hn.1 (h ▸ List.mem_map_of_mem f (l.get_mem i hi'))
      · exact ih i hi' hn.2 h

/- ### Concrete fixtures for witnesses and counterexamples -/

def samplePanel : ComicPanel :=
  { panelId := 1, visualPrompt := "a cat under rain", caption := "It rains.",
    characterDialogue := "Oh no!", imageUrl := none }

def samplePanelB : ComicPanel :=
  { panelId := 2, visualPrompt := "a sunny field", caption := "Sun is back.",
    characterDialogue := "Great!", imageUrl := none }

def sampleVocab : Vocabulary :=
  { word := "drizzle", definition := "light rain",
    «example» := "A drizzle fell all morning.",
    visualPrompt := "soft rain on a window", imageUrl := none }

def sampleNode : LogicNode := { id := "n1", label := "Rain", group := 1 }

def sampleLink : LogicLink :=
  { source := "n1", target := "n2", relationship := "causes" }

def sampleGraph : LogicGraphData :=
  { nodes := [sampleNode], links := [sampleLink] }

def sampleDoc : AnalysisResult :=
  { summary := "weather", comicScript := [samplePanel, samplePanelB],
    logicGraph := sampleGraph, vocabulary := [sampleVocab] }

/-- A synthesis oracle that always fails at the network level. -/
def failingSynth : Nat → SynthResponse := fun _ => Except.error ()

/-- A synthesis oracle that always returns one image part. -/
def okSynth : Nat → SynthResponse := fun _ =>
  Except.ok (some [{ inlineData := some { mimeType := some "image/png", data := "QUJD" } }])

def idleSession : Session :=
  { appState := AppState.IDLE, data := none, errorMsg := none }

def completeSession : Session :=
  { appState := AppState.COMPLETE, data := some sampleDoc, errorMsg := none }

/- ### Claims -/

/-- C10: `generateImage` is total and never propagates a failure to its
caller: whenever the underlying call fails (network rejection, missing
parts chain, or a response with no usable image data) it returns the
fixed placeholder URL instead of rethrowing, so every item passed
through it always receives some image value. -/
theorem c10_generateImage_total_placeholder (resp : SynthResponse) :
    (synthFailed resp = true → generateImage resp = imagePlaceholder) ∧
    (∀ p : ComicPanel,
      (illustratePanel (Except.ok (generateImage resp)) p).imageUrl =
        some (generateImage resp)) ∧
    (∀ v : Vocabulary,
      (illustrateVocab (Except.ok (generateImage resp)) v).imageUrl =
        some (generateImage resp)) := by
  refine ⟨generateImage_of_failed resp, ?_, ?_⟩
  · intro p; rfl
  · intro v; rfl

theorem c10_witness :
    generateImage (Except.error ()) = imagePlaceholder ∧
    (illustratePanel (Except.ok (generateImage (Except.error ()))) samplePanel).imageUrl =
      some (generateImage (Except.error ())) :=
  ⟨(c10_generateImage_total_placeholder (Except.error ())).1 rfl,
   (c10_generateImage_total_placeholder (Except.error ())).2.1 samplePanel⟩

/-- C2 counterexample: invoking `handleAnalyze` from the `COMPLETE`
state is not a no-op: the synchronous prefix transitions the state to
`ANALYZING`, clears the Document, and the run issues the analysis
collaborator call. -/
theorem c2_counterexample :
    handleAnalyzeStart completeSession ≠ completeSession ∧
    (handleAnalyzeStart completeSession).data = none ∧
    (handleAnalyze completeSession (Except.error ()) failingSynth failingSynth).2 ≠
      [] := by
  refine ⟨?_, rfl, ?_⟩
  · intro h
    exact absurd (congrArg Session.appState h) (by decide)
  · intro h
    simp [handleAnalyze] at h

/-- C2 amended: the start operation itself has no state guard — invoked
from any session state it unconditionally transitions to `ANALYZING`,
clears the Document, and issues the analysis call; the idempotent-start
behaviour comes only from the UI, which renders the input section (the
sole way to start a run) exactly in the `IDLE` and `ERROR` states. -/
theorem c2_start_guard_is_ui_only :
    (∀ s : Session, handleAnalyzeStart s =
      { appState := AppState.ANALYZING, data := none, errorMsg := none }) ∧
    (∀ (s : Session) (r : Except Unit AnalysisResult) (pr vr : Nat → SynthResponse),
      ExtCall.analysis ∈ (handleAnalyze s r pr vr).2) ∧
    (∀ st : AppState, inputSectionVisible st = true ↔
      (st = AppState.IDLE ∨ st = AppState.ERROR)) := by
  refine ⟨fun s => rfl, ?_, ?_⟩
  · intro s r pr vr
    cases r with
    | error e => simp [handleAnalyze]
    | ok result => simp [handleAnalyze]
  · intro st
    cases st <;> decide

/-- C5 counterexample: the Start Over button invoked in `COMPLETE` with
a live Document returns the state to `IDLE` but does not clear the
Document — a residual Document remains. -/
theorem c5_counterexample :
    (startOver completeSession).appState = AppState.IDLE ∧
    (startOver completeSession).data = some sampleDoc ∧
    some sampleDoc ≠ (none : Option AnalysisResult) := by
  refine ⟨rfl, rfl, ?_⟩
  intro h
  exact Option.noConfusion h

/-- C5 amended: Start Over returns the state to exactly `IDLE` but
leaves the Document field untouched; the residual Document is cleared
only when the next run starts. After a failed analysis the Document is
already `none` (cleared at the start of the failed run), so resetting
from `ERROR` does yield `IDLE` with no residual Document. -/
theorem c5_reset_keeps_document (s : Session) :
    (startOver s).appState = AppState.IDLE ∧
    (startOver s).data = s.data ∧
    (∀ pr vr : Nat → SynthResponse,
      (handleAnalyze s (Except.error ()) pr vr).1 =
        { appState := AppState.ERROR, data := none,
          errorMsg := some analysisErrorMsg } ∧
      (startOver (handleAnalyze s (Except.error ()) pr vr).1).data = none ∧
      (startOver (handleAnalyze s (Except.error ()) pr vr).1).appState =
        AppState.IDLE) := by
  refine ⟨rfl, rfl, fun pr vr => ⟨rfl, rfl, rfl⟩⟩

/-- C4: during an editing session on the graph, edits accumulate only in
the scratch copy `editData` — the Document is untouched; Save replaces
the Document's `graph` with exactly the scratch copy in one step, while
Cancel leaves the Document's graph equal (as a value, hence
byte-for-byte under any serialisation) to its pre-edit value. There is
no partial save: the only Document write is the single wholesale
replacement performed by Save. -/
theorem c4_scratch_save_cancel (doc : AnalysisResult) (edits : List GraphEdit) :
    (runGraphActions (GraphAction.startEdit :: edits.map GraphAction.edit)
        (mountedGraphSession doc)).data = some doc ∧
    (runGraphActions (GraphAction.startEdit :: edits.map GraphAction.edit)
        (mountedGraphSession doc)).editData = applyEdits edits doc.logicGraph ∧
    (graphStep GraphAction.save
        (runGraphActions (GraphAction.startEdit :: edits.map GraphAction.edit)
          (mountedGraphSession doc))).data =
      some { doc with logicGraph := applyEdits edits doc.logicGraph } ∧
    (graphStep GraphAction.cancel
        (runGraphActions (GraphAction.startEdit :: edits.map GraphAction.edit)
          (mountedGraphSession doc))).data = some doc := by
  have hstart : graphStep GraphAction.startEdit (mountedGraphSession doc) =
      { data := some doc, isEditing := true, editData := doc.logicGraph } := rfl
  have hrun : runGraphActions (GraphAction.startEdit :: edits.map GraphAction.edit)
      (mountedGraphSession doc) =
      { data := some doc, isEditing := true,
        editData := applyEdits edits doc.logicGraph } := by
    show runGraphActions (edits.map GraphAction.edit)
        (graphStep GraphAction.startEdit (mountedGraphSession doc)) = _
    rw [hstart, runGraphActions_edits]
  rw [hrun]
  exact ⟨rfl, rfl, rfl, rfl⟩

/-- C7: removing a node that is referenced by at least one link, then
saving, yields a Document graph in which that node's entry is gone from
`nodes` (its id is absent entirely when node ids are distinct) while the
links list is exactly the one before the edit — the referencing link
survives as a dangling link; no link is implicitly deleted and every
operation involved is a total function. -/
theorem c7_remove_node_keeps_dangling_link (doc : AnalysisResult) (idx : Nat)
    (hidx : idx < doc.logicGraph.nodes.length)
    (hnodup : (doc.logicGraph.nodes.map (fun n => n.id)).Nodup)
    (l : LogicLink) (hl : l ∈ doc.logicGraph.links)
    (href : l.source = (doc.logicGraph.nodes.get ⟨idx, hidx⟩).id ∨
            l.target = (doc.logicGraph.nodes.get ⟨idx, hidx⟩).id) :
    ∃ d : AnalysisResult,
      (runGraphActions [GraphAction.startEdit,
          GraphAction.edit (GraphEdit.removeNode idx), GraphAction.save]
          (mountedGraphSession doc)).data = some d ∧
      d.logicGraph.links = doc.logicGraph.links ∧
      l ∈ d.logicGraph.links ∧
      (∀ n ∈ d.logicGraph.nodes,
        n.id ≠ (doc.logicGraph.nodes.get ⟨idx, hidx⟩).id) := by
  refine ⟨{ doc with logicGraph :=
      { nodes := doc.logicGraph.nodes.eraseIdx idx,
        links := doc.logicGraph.links } }, rfl, rfl, hl, ?_⟩
  intro n hn hid
  have hmem : (doc.logicGraph.nodes.get ⟨idx, hidx⟩).id ∈
      (doc.logicGraph.nodes.eraseIdx idx).map (fun n => n.id) :=
    hid ▸ List.mem_map_of_mem (fun n => n.id) hn
  exact not_mem_map_eraseIdx (fun n => n.id) doc.logicGraph.nodes idx hidx hnodup hmem

theorem c7_witness :
    ∃ d : AnalysisResult,
      (runGraphActions [GraphAction.startEdit,
          GraphAction.edit (GraphEdit.removeNode 0), GraphAction.save]
          (mountedGraphSession sampleDoc)).data = some d ∧
      d.logicGraph.links = sampleDoc.logicGraph.links ∧
      sampleLink ∈ d.logicGraph.links ∧
      (∀ n ∈ d.logicGraph.nodes,
        n.id ≠ (sampleDoc.logicGraph.nodes.get ⟨0, by decide⟩).id) :=
  c7_remove_node_keeps_dangling_link sampleDoc 0 (by decide) (by decide)
    sampleLink (by decide) (Or.inl (by decide))

theorem map_congr_mem (f g : α → β) (l : List α) (h : ∀ a ∈ l, f a = g a) :
    l.map f = l.map g := by
  induction l with
  | nil => rfl
  | cons a l ih =>
    simp only [List.map_cons]
    rw [h a (List.mem_cons_self a l),
      ih (fun a ha => h a (List.mem_cons_of_mem _ ha))]

/-- C8: `updatePanelText` is a pure total function (hence synchronous
and never throwing). When the addressed id matches no panel — or the
Document is null — the Document is returned entirely unchanged (no
partial mutation); when the addressed panel is found (ids being unique
per the Document invariant), exactly its two editable fields `caption`
and `characterDialogue` are replaced and every other panel, and every
other field of the addressed panel, is preserved. -/
theorem c8_updatePanelText_frame :
    (∀ (panelId : Int) (up : ComicPanel),
      handleUpdatePanel none panelId up = none) ∧
    (∀ (d : AnalysisResult) (panelId : Int) (up : ComicPanel),
      (∀ p ∈ d.comicScript, p.panelId ≠ panelId) →
      handleUpdatePanel (some d) panelId up = some d) ∧
    (∀ (d : AnalysisResult) (p : ComicPanel), p ∈ d.comicScript →
      (d.comicScript.map (fun q => q.panelId)).Nodup →
      ∀ (caption dialogue : String),
        updatePanelText (some d) p caption dialogue =
          some { d with comicScript := d.comicScript.map (fun q =>
            if q.panelId = p.panelId then
              { q with caption := caption, characterDialogue := dialogue }
            else q) }) := by
  refine ⟨fun panelId up => rfl, ?_, ?_⟩
  · intro d panelId up hnone
    simp only [handleUpdatePanel]
    rw [map_if_panelId_not_mem d.comicScript panelId (fun _ => up) hnone]
  · intro d p hp hnodup caption dialogue
    simp only [updatePanelText, handleUpdatePanel]
    have hmaps : d.comicScript.map (fun q =>
        if q.panelId = p.panelId then editFormSave p caption dialogue else q) =
        d.comicScript.map (fun q =>
          if q.panelId = p.panelId then
            { q with caption := caption, characterDialogue := dialogue }
          else q) := by
      apply map_congr_mem
      intro q hq
      by_cases hid : q.panelId = p.panelId
      · have hqp : q = p := List.inj_on_of_nodup_map hnodup hq hp hid
        subst hqp
        simp [hid, editFormSave]
      · simp [hid]
    rw [hmaps]

theorem c8_witness :
    handleUpdatePanel (some sampleDoc) 99 samplePanel = some sampleDoc ∧
    updatePanelText (some sampleDoc) samplePanel "new caption" "new words" =
      some { sampleDoc with comicScript := sampleDoc.comicScript.map (fun q =>
        if q.panelId = samplePanel.panelId then
          { q with caption := "new caption", characterDialogue := "new words" }
        else q) } :=
  ⟨c8_updatePanelText_frame.2.1 sampleDoc 99 samplePanel (by decide),
   c8_updatePanelText_frame.2.2 sampleDoc samplePanel (by decide) (by decide)
     "new caption" "new words"⟩

/-- C6 counterexample: if the synthesis call behind `regenerateImage`
fails (here: the request rejects), the Document is NOT left unchanged —
the addressed panel's `image` field is overwritten with the fixed
placeholder URL, because `generateImage` absorbs the failure and
resolves with that string instead of rejecting. -/
theorem c6_counterexample :
    handleRegeneratePanelImage (some sampleDoc) 1 (Except.error ()) =
      some { sampleDoc with comicScript :=
        [{ samplePanel with imageUrl := some imagePlaceholder }, samplePanelB] } ∧
    handleRegeneratePanelImage (some sampleDoc) 1 (Except.error ()) ≠
      some sampleDoc := by
  refine ⟨by decide, ?_⟩
  intro h
  have := Option.some.inj h
  have hpanels := congrArg AnalysisResult.comicScript this
  exact absurd hpanels (by decide)

/-- C6 amended: `regenerateImage` on a panel id present in the Document
always replaces exactly that panel's `image` field with
`generateImage`'s result — the genuine image on success, the fixed
placeholder URL on synthesis failure (the handler's catch is dead code
since `generateImage` never rejects). All other panels, and all other
fields of the addressed panel, are unchanged; an id matching no panel
leaves the Document unchanged, as does a null Document. -/
theorem c6_regenerate_replaces_only_image (d : AnalysisResult) (panelId : Int)
    (resp : SynthResponse) :
    (handleRegeneratePanelImage none panelId resp = none) ∧
    (d.comicScript.find? (fun p => p.panelId = panelId) = none →
      handleRegeneratePanelImage (some d) panelId resp = some d) ∧
    (∀ panel, d.comicScript.find? (fun p => p.panelId = panelId) = some panel →
      handleRegeneratePanelImage (some d) panelId resp =
        some { d with comicScript := d.comicScript.map (fun p =>
          if p.panelId = panelId then
            { p with imageUrl := some (generateImage resp) }
          else p) }) ∧
    (synthFailed resp = true → generateImage resp = imagePlaceholder) := by
  refine ⟨rfl, ?_, ?_, generateImage_of_failed resp⟩
  · intro hfind
    simp only [handleRegeneratePanelImage, hfind]
  · intro panel hfind
    simp only [handleRegeneratePanelImage, hfind]

theorem c6_witness :
    handleRegeneratePanelImage (some sampleDoc) 7 (Except.error ()) =
      some sampleDoc ∧
    handleRegeneratePanelImage (some sampleDoc) 2 (Except.error ()) =
      some { sampleDoc with comicScript := sampleDoc.comicScript.map (fun p =>
        if p.panelId = 2 then
          { p with imageUrl := some (generateImage (Except.error ())) }
        else p) } :=
  ⟨(c6_regenerate_replaces_only_image sampleDoc 7 (Except.error ())).2.1 (by decide),
   (c6_regenerate_replaces_only_image sampleDoc 2 (Except.error ())).2.2.1
     samplePanelB (by decide)⟩

/-- C1 counterexample: run a full pipeline in which the comic panel
synthesis requests all fail at the network level. The panels do NOT keep
their prior imageless state: each gets its `imageUrl` populated with the
fixed placeholder URL, so an item whose image-synthesis call failed ends
up with an `image` field after the merge. -/
theorem c1_counterexample :
    ∃ d : AnalysisResult,
      (handleAnalyze idleSession (Except.ok sampleDoc) failingSynth okSynth).1.data =
        some d ∧
      d.comicScript.get? 0 =
        some { samplePanel with imageUrl := some imagePlaceholder } ∧
      ({ samplePanel with imageUrl := some imagePlaceholder } : ComicPanel) ≠
        samplePanel := by
  refine ⟨{ sampleDoc with
      comicScript :=
        [{ samplePanel with imageUrl := some imagePlaceholder },
         { samplePanelB with imageUrl := some imagePlaceholder }],
      vocabulary := [{ sampleVocab with
        imageUrl := some "data:image/png;base64,QUJD" }] }, by decide, by decide, ?_⟩
  intro h
  exact absurd (congrArg ComicPanel.imageUrl h) (by decide)

/-- C1 amended: for every run that reaches the image-synthesis merge,
an item whose underlying synthesis call fails does not keep an empty
`image` field: `generateImage` absorbs the failure, so the item's
`imageUrl` is populated with the fixed placeholder URL (the per-item
catch in the fan-out is dead code). The failure is still not surfaced as
a user-visible error state: the run ends in `COMPLETE` with no error
message, and the batch join neither fails nor drops items. -/
theorem c1_failed_items_get_placeholder (s : Session) (result : AnalysisResult)
    (panelResp vocabResp : Nat → SynthResponse) :
    (handleAnalyze s (Except.ok result) panelResp vocabResp).1.appState =
      AppState.COMPLETE ∧
    (handleAnalyze s (Except.ok result) panelResp vocabResp).1.errorMsg = none ∧
    (∀ d, (handleAnalyze s (Except.ok result) panelResp vocabResp).1.data = some d →
      d.comicScript.length = result.comicScript.length ∧
      d.vocabulary.length = result.vocabulary.length) ∧
    (∀ i, i < result.comicScript.length → synthFailed (panelResp i) = true →
      ∃ d, (handleAnalyze s (Except.ok result) panelResp vocabResp).1.data = some d ∧
        d.comicScript.get? i = (result.comicScript.get? i).map
          (fun p => { p with imageUrl := some imagePlaceholder })) ∧
    (∀ j, j < result.vocabulary.length → synthFailed (vocabResp j) = true →
      ∃ d, (handleAnalyze s (Except.ok result) panelResp vocabResp).1.data = some d ∧
        d.vocabulary.get? j = (result.vocabulary.get? j).map
          (fun v => { v with imageUrl := some imagePlaceholder })) := by
  refine ⟨rfl, rfl, ?_, ?_, ?_⟩
  · intro d hd
    simp only [handleAnalyze, mergeImages] at hd
    have hd' := Option.some.inj hd
    subst hd'
    constructor
    · exact length_mapI _ result.comicScript
    · exact length_mapI _ result.vocabulary
  · intro i hi hfail
    refine ⟨_, rfl, ?_⟩
    show (mapI (fun i panel =>
        illustratePanel (Except.ok (generateImage (panelResp i))) panel)
        result.comicScript).get? i = _
    rw [get?_mapI]
    rcases List.get?_eq_some.mpr ⟨hi, rfl⟩ with hget
    rw [hget]
    simp only [Option.map_some', illustratePanel_ok,
      generateImage_of_failed (panelResp i) hfail]
  · intro j hj hfail
    refine ⟨_, rfl, ?_⟩
    show (mapI (fun j v =>
        illustrateVocab (Except.ok (generateImage (vocabResp j))) v)
        result.vocabulary).get? j = _
    rw [get?_mapI]
    rcases List.get?_eq_some.mpr ⟨hj, rfl⟩ with hget
    rw [hget]
    simp only [Option.map_some', illustrateVocab,
      generateImage_of_failed (vocabResp j) hfail]

theorem c1_witness :
    (handleAnalyze idleSession (Except.ok sampleDoc) failingSynth okSynth).1.appState =
      AppState.COMPLETE ∧
    (handleAnalyze idleSession (Except.ok sampleDoc) failingSynth okSynth).1.errorMsg =
      none ∧
    ∃ d, (handleAnalyze idleSession (Except.ok sampleDoc) failingSynth okSynth).1.data =
        some d ∧
      d.comicScript.get? 0 = (sampleDoc.comicScript.get? 0).map
        (fun p => { p with imageUrl := some imagePlaceholder }) :=
  ⟨(c1_failed_items_get_placeholder idleSession sampleDoc failingSynth okSynth).1,
   (c1_failed_items_get_placeholder idleSession sampleDoc failingSynth okSynth).2.1,
   (c1_failed_items_get_placeholder idleSession sampleDoc failingSynth okSynth).2.2.2.1
     0 (by decide) (by decide)⟩

/-- C3: the image fan-out has `Promise.all` semantics. For every list of
per-item promises, and every completion order in which they settle, the
batch result exists exactly when every request has settled, and then it
is the list of per-item values in input order — independent of the
completion order. Each per-item value is either the input item with its
`imageUrl` populated or the input item unchanged, and in particular
preserves the item's identity. Consequently, after a run reaches
`COMPLETE`, the Document's `comicScript` and `vocabulary` have the same
length, order, and identities (`panelId`s / `word`s) as the analysis
result. -/
theorem c3_fanout_order_and_identity (s : Session) (result : AnalysisResult)
    (panelResp vocabResp : Nat → SynthResponse) :
    (∀ (β : Type) (values : List β) (order : List (Fin values.length))
        (res : List β),
      joinSettled (promiseAll values order) = some res ↔
        ((∀ j : Fin values.length, j ∈ order) ∧ res = values)) ∧
    (∀ (gen : Except Unit String) (p : ComicPanel),
      ((∃ u, illustratePanel gen p = { p with imageUrl := some u }) ∨
        illustratePanel gen p = p) ∧
      (illustratePanel gen p).panelId = p.panelId) ∧
    (∀ (gen : Except Unit String) (v : Vocabulary),
      ((∃ u, illustrateVocab gen v = { v with imageUrl := some u }) ∨
        illustrateVocab gen v = v) ∧
      (illustrateVocab gen v).word = v.word) ∧
    ((handleAnalyze s (Except.ok result) panelResp vocabResp).1.appState =
      AppState.COMPLETE ∧
     ∃ d, (handleAnalyze s (Except.ok result) panelResp vocabResp).1.data = some d ∧
       d.comicScript.map (fun p => p.panelId) =
         result.comicScript.map (fun p => p.panelId) ∧
       d.vocabulary.map (fun v => v.word) =
         result.vocabulary.map (fun v => v.word) ∧
       d.comicScript.length = result.comicScript.length ∧
       d.vocabulary.length = result.vocabulary.length) := by
  refine ⟨?_, ?_, ?_, rfl, ?_⟩
  · intro β values order res
    exact promiseAll_join_iff values order res
  · intro gen p
    refine ⟨?_, illustratePanel_panelId gen p⟩
    cases gen with
    | ok u => exact Or.inl ⟨u, rfl⟩
    | error e => exact Or.inr rfl
  · intro gen v
    refine ⟨?_, illustrateVocab_word gen v⟩
    cases gen with
    | ok u => exact Or.inl ⟨u, rfl⟩
    | error e => exact Or.inr rfl
  · refine ⟨_, rfl, ?_, ?_, ?_, ?_⟩
    · show (mapI (fun i panel =>
          illustratePanel (Except.ok (generateImage (panelResp i))) panel)
          result.comicScript).map (fun p => p.panelId) = _
      rw [map_mapI]
      exact mapI_congr_map _ _ _
        (fun i p => illustratePanel_panelId (Except.ok (generateImage (panelResp i))) p)
    · show (mapI (fun i v =>
          illustrateVocab (Except.ok (generateImage (vocabResp i))) v)
          result.vocabulary).map (fun v => v.word) = _
      rw [map_mapI]
      exact mapI_congr_map _ _ _
        (fun i v => illustrateVocab_word (Except.ok (generateImage (vocabResp i))) v)
    · exact length_mapI _ result.comicScript
    · exact length_mapI _ result.vocabulary

theorem c3_witness :
    (joinSettled (promiseAll [samplePanel, samplePanelB]
        [(⟨1, by decide⟩ : Fin 2), ⟨0, by decide⟩]) =
      some [samplePanel, samplePanelB]) ∧
    ∃ d, (handleAnalyze idleSession (Except.ok sampleDoc) okSynth okSynth).1.data =
        some d ∧
      d.comicScript.map (fun p => p.panelId) =
        sampleDoc.comicScript.map (fun p => p.panelId) :=
  ⟨((c3_fanout_order_and_identity idleSession sampleDoc okSynth okSynth).1
      ComicPanel [samplePanel, samplePanelB]
      [⟨1, by decide⟩, ⟨0, by decide⟩] [samplePanel, samplePanelB]).mpr
    ⟨by decide, rfl⟩,
   ((c3_fanout_order_and_identity idleSession sampleDoc okSynth okSynth).2.2.2.2).elim
     (fun d hd => ⟨d, hd.1, hd.2.1⟩)⟩

/-- The Document produced by a hypothetical later run B, differing from
`sampleDoc` (run A's Document). -/
def docRunB : AnalysisResult :=
  { summary := "run B", comicScript := [samplePanelB],
    logicGraph := sampleGraph, vocabulary := [] }

/-- Run A's illustrated panels, still in flight when run B's Document is
already stored. -/
def stalePanelsRunA : List ComicPanel :=
  [{ samplePanel with imageUrl := some "data:image/png;base64,QUJD" },
   { samplePanelB with imageUrl := some "data:image/png;base64,QUJD" }]

/-- C9, evaluating the code at the failing input: the image-merge
functional update (`setData(prev => prev ? {...prev, comicScript,
vocabulary} : null)`) carries no run identifier — its only staleness
guard is the null check on `prev`. When a stale run A's fan-out resolves
while the session holds run B's Document, the merge APPLIES run A's
panels and vocabulary to run B's Document instead of dropping them; the
stale results are dropped only in the special case where the Document
has been cleared to null. -/
theorem c9_stale_merge_applied :
    mergeImages (some docRunB) stalePanelsRunA [] =
      some { docRunB with comicScript := stalePanelsRunA, vocabulary := [] } ∧
    mergeImages (some docRunB) stalePanelsRunA [] ≠ some docRunB ∧
    mergeImages none stalePanelsRunA [] = none := by
  refine ⟨rfl, ?_, rfl⟩
  intro h
  have hdoc := Option.some.inj h
  have hpanels := congrArg AnalysisResult.comicScript hdoc
  exact absurd hpanels (by decide)
